import Mathlib

/-!
Shallow embedding of `scraper.py`: the page-type hierarchy
(`BasePage` / `AdPage` / `ResultsPage` / `ModelSearch`) and the
key/value normalization algorithm `AdPage._clean_key_value`.

Strings are modelled as `List Char`.  The Python regex

    ^[^/]*? [\s\xa0]? ((?:[\s\xa0]?[0-9]{1,3})+) [\s\xa0]? ([^0-9\s\xa0]*)$

(compiled with `re.VERBOSE`, matched with `re.match`) is embedded as an
explicit backtracking matcher that reproduces Python's alternative
ordering: the lazy `*?` tries the shortest prefix first, greedy `?`
tries to consume first, greedy `+`/`{1,3}` try the longest repetition
first, and `$` accepts at the end of the string or just before one
final newline.
-/

/-- Strings of the scraper are modelled as lists of characters. -/
abbrev Str := List Char

/-- Conversion from a Lean string literal. -/
def str (s : String) : Str := s.toList

/-- The class `[0-9]` of the regex: ASCII digits only. -/
def isDigit (c : Char) : Bool := 48 ≤ c.toNat && c.toNat ≤ 57

/-- Code points matched by Python's `\s` on `str` patterns (Unicode
whitespace); `\xa0` (160) is among them, so the class `[\s\xa0]` equals
this set. -/
def pySpaceCodes : List Nat :=
  [9, 10, 11, 12, 13, 28, 29, 30, 31, 32, 133, 160, 0x1680,
   0x2000, 0x2001, 0x2002, 0x2003, 0x2004, 0x2005, 0x2006, 0x2007,
   0x2008, 0x2009, 0x200a, 0x2028, 0x2029, 0x202f, 0x205f, 0x3000]

/-- The class `[\s\xa0]` of the regex. -/
def isPySpace (c : Char) : Bool := pySpaceCodes.contains c.toNat

/-- The non-breaking space character `\xa0`. -/
def nbsp : Char := Char.ofNat 160

/-- The class `[^0-9\s\xa0]` allowed inside the captured unit suffix. -/
def g2class (c : Char) : Bool := !(isDigit c) && !(isPySpace c)

/-- A string entirely inside the unit class `[^0-9\s\xa0]`. -/
def unitOk (u : Str) : Bool := u.all g2class

/-- A string made of digits and whitespace only (what capture group 1
can consist of). -/
def g1Ok (g : Str) : Bool := g.all (fun c => isDigit c || isPySpace c)

/-- Matching `([^0-9\s\xa0]*)$` greedily at `s`: the maximal prefix of
unit-class characters is captured, and `$` then accepts the empty
remainder or a single final newline (Python's `$` without
`re.MULTILINE`). -/
def matchG2 (s : Str) : Option Str :=
  let u := s.takeWhile g2class
  let r := s.dropWhile g2class
  if r = [] || r = ['\n'] then some u else none

/-- Matching `[\s\xa0]? ([^0-9\s\xa0]*)$` at `s`; the greedy `?` first
tries to consume one whitespace character. -/
def matchTail (s : Str) : Option Str :=
  match s with
  | c :: rest =>
      if isPySpace c then
        match matchG2 rest with
        | some u => some u
        | none => matchG2 s
      else matchG2 s
  | [] => matchG2 []

/-- The alternatives of `[0-9]{1,3}` at `s` in greedy order (3, then 2,
then 1 digits), each as (consumed, remainder). -/
def digitAlts (s : Str) : List (Str × Str) :=
  match s with
  | d1 :: r1 =>
    if isDigit d1 then
      match r1 with
      | d2 :: r2 =>
        if isDigit d2 then
          match r2 with
          | d3 :: r3 =>
            if isDigit d3 then
              [([d1, d2, d3], r3), ([d1, d2], r2), ([d1], r1)]
            else [([d1, d2], r2), ([d1], r1)]
          | [] => [([d1, d2], r2), ([d1], r1)]
        else [([d1], r1)]
      | [] => [([d1], r1)]
    else []
  | [] => []

/-- The alternatives of one repetition unit `[\s\xa0]?[0-9]{1,3}` at
`s`, in greedy order: with the optional whitespace consumed first, then
without it. -/
def unitAlts (s : Str) : List (Str × Str) :=
  (match s with
   | c :: rest =>
       if isPySpace c then (digitAlts rest).map (fun p => (c :: p.1, p.2))
       else []
   | [] => []) ++ digitAlts s

/-- Matching `((?:[\s\xa0]?[0-9]{1,3})+) [\s\xa0]? ([^0-9\s\xa0]*)$` at
`s` with fuel-bounded recursion (every repetition unit consumes at
least one character, so `s.length` fuel suffices).  Returns the two
captures (group 1, group 2) of the first match in Python's backtracking
order: more repetitions of the `+` are tried before fewer. -/
def m1 : Nat → Str → Option (Str × Str)
  | 0, _ => none
  | fuel + 1, s =>
    (unitAlts s).findSome? (fun p =>
      match m1 fuel p.2 with
      | some (g1, g2) => some (p.1 ++ g1, g2)
      | none =>
        match matchTail p.2 with
        | some g2 => some (p.1, g2)
        | none => none)

/-- Group-1-onwards matching with enough fuel. -/
def matchG1AndTail (s : Str) : Option (Str × Str) := m1 (s.length + 1) s

/-- Matching `[\s\xa0]? (group 1 onwards)` at `s`: the greedy optional
whitespace before group 1 is tried consumed-first. -/
def matchAt (s : Str) : Option (Str × Str) :=
  match s with
  | c :: rest =>
      if isPySpace c then
        match matchG1AndTail rest with
        | some r => some r
        | none => matchG1AndTail s
      else matchG1AndTail s
  | [] => matchG1AndTail []

/-- The whole anchored pattern at `s`: the lazy `[^/]*?` tries the
current position first and otherwise skips one character, which must
not be `/`. -/
def matchValue (s : Str) : Option (Str × Str) :=
  match s with
  | [] => matchAt []
  | c :: rest =>
    match matchAt (c :: rest) with
    | some r => some r
    | none => if c = '/' then none else matchValue rest

/-- A Python value as produced by `_clean_key_value`: an `int` or a
`str`. -/
inductive PyVal : Type
  | vInt : Nat → PyVal
  | vStr : Str → PyVal
deriving DecidableEq, Repr

/-- Python `str.strip()`: drop leading and trailing whitespace. -/
def pyStrip (s : Str) : Str :=
  ((s.dropWhile isPySpace).reverse.dropWhile isPySpace).reverse

/-- Python `re.sub(r'\s|\xa0', '', s)`: delete every whitespace
character. -/
def subStripWs (s : Str) : Str := s.filter (fun c => !(isPySpace c))

/-- The numeric value of a digit string (Python `int` on a string of
ASCII digits). -/
def natOfDigits (s : Str) : Nat := s.foldl (fun n c => n * 10 + (c.toNat - 48)) 0

/-- Python `value.replace('\xa0', ' ')`. -/
def replaceNbsp (s : Str) : Str := s.map (fun c => if c = nbsp then ' ' else c)

/-- Embedding of `AdPage._clean_key_value(key, value)`: drop the last
character of the key (`key[:-1]`); try the numeric pattern on the
value; on a match return the digits of group 1 as an integer, appending
` (unit)` to the key when group 2 is non-empty; otherwise return the
value with non-breaking spaces replaced by ordinary spaces. -/
def clean_key_value (key value : Str) : Str × PyVal :=
  let new_key := key.dropLast
  match matchValue value with
  | some (g1, g2) =>
      let extracted := pyStrip g1
      let new_value := PyVal.vInt (natOfDigits (subStripWs extracted))
      if g2 ≠ [] then (new_key ++ str " (" ++ g2 ++ [')'], new_value)
      else (new_key, new_value)
  | none => (new_key, PyVal.vStr (replaceNbsp value))

/-- A value made of non-empty runs of ASCII digits joined by single
whitespace characters — the "digit groups of 1-3 digits optionally
separated by spaces" of the specification (adjacent unseparated groups
coalesce into one run). -/
def pureNum : Str → Bool
  | [] => false
  | [c] => isDigit c
  | c :: d :: rest => isDigit c && (pureNum (d :: rest) || (isPySpace d && pureNum rest))

/-- A valid remainder after capture group 1: nothing, a non-empty unit,
or one whitespace followed by a (possibly empty) unit.  The second
argument is the unit that group 2 captures. -/
def TailOk (t u : Str) : Prop :=
  (t = [] ∧ u = []) ∨
  (t = u ∧ unitOk u = true ∧ u ≠ []) ∨
  (∃ c, t = c :: u ∧ isPySpace c = true ∧ unitOk u = true)

/-- What capture group 1 together with everything to its left inside
the repetition can look like: a pure number, optionally preceded by one
whitespace character. -/
def goodG1 (w : Str) : Prop :=
  pureNum w = true ∨ ∃ c w', w = c :: w' ∧ isPySpace c = true ∧ pureNum w' = true

/-- The separator optionally sitting between group 1 and group 2. -/
def sepOk (sep : Str) : Prop := sep = [] ∨ ∃ c, sep = [c] ∧ isPySpace c = true

/-- The optional final newline accepted by `$`. -/
def nlOk (nl : Str) : Prop := nl = [] ∨ nl = ['\n']

/-- One backtracking step of the `+` repetition: after consuming one
unit leaving `p.2`, first try more repetitions, then close group 1 and
match the tail.  `m1 (fuel+1) s` equals `(unitAlts s).findSome?
(altStep fuel)`. -/
def altStep (fuel : Nat) (p : Str × Str) : Option (Str × Str) :=
  match m1 fuel p.2 with
  | some (g1, g2) => some (p.1 ++ g1, g2)
  | none =>
    match matchTail p.2 with
    | some g2 => some (p.1, g2)
    | none => none

/-- The Python exceptions the embedded code can raise or catch. -/
inductive PyErr : Type
  | attributeError
  | indexError
  | valueError
  | connectionError
deriving DecidableEq, Repr

/-- One ad page as seen through the BeautifulSoup `find` calls of
`AdPage.parse`: each field is the text content (or list-item texts) of
the element, `none` when the element is absent.  `descriptionBlock` is
doubly optional because the code does `soup.find('div',
class_='leiras')` and then `.find('div')` inside it. -/
structure AdMarkup where
  titleBlock : Option Str
  attrTable : Option (List Str)
  featuresBlock : Option (List Str)
  descriptionBlock : Option (Option Str)
  otherBlock : Option (List Str)
deriving DecidableEq, Repr

/-- The cell loop `for cell_index in range(0, len(cells), 2)` reading
`cells[cell_index]` and `cells[cell_index + 1]`: consumes the cells
pairwise; on an odd cell count the read of `cells[cell_index + 1]` in
the last iteration is out of range, an `IndexError`, modelled `none`. -/
def pairCells : List Str → Option (List (Str × Str))
  | [] => some []
  | [_] => none
  | x :: y :: rest => (pairCells rest).map (fun l => (x, y) :: l)

/-- Python dict assignment `d[k] = v`: overwrite in place, else append. -/
def dictInsert (d : List (Str × PyVal)) (k : Str) (v : PyVal) : List (Str × PyVal) :=
  if d.any (fun p => p.1 == k) then d.map (fun p => if p.1 == k then (k, v) else p)
  else d ++ [(k, v)]

/-- Python dict assignment `d[k] = True` for a presence set: the
insertion-ordered list of keys. -/
def keyInsert (d : List Str) (k : Str) : List Str :=
  if d.contains k then d else d ++ [k]

/-- The record `AdPage.parse` builds into `self._data`.  The `brand`,
`model` and `url` stamps are verbatim copies of the page's constructor
arguments (kept on `AdPageState` below) and `scraped` is the wall
clock, so they are not re-modelled here. -/
structure AdRec where
  title : Str
  details : List (Str × PyVal)
  features : List Str
  description : Option Str
  other : List Str
deriving DecidableEq, Repr

/-- The extraction body of `AdPage.parse` on downloaded markup: the
title text and the attribute table are mandatory (an absent element
makes the `.text` / `.find_all` attribute access raise
`AttributeError`); the features, description and other-information
blocks are guarded by `if` and optional; cells are read pairwise and
cleaned with `_clean_key_value`. -/
def adExtract (m : AdMarkup) : Except PyErr AdRec :=
  match m.titleBlock with
  | none => .error .attributeError
  | some t =>
    match m.attrTable with
    | none => .error .attributeError
    | some cells =>
      match pairCells cells with
      | none => .error .indexError
      | some pairs =>
        let details := pairs.foldl
          (fun d p =>
            let kv := clean_key_value (pyStrip p.1) (pyStrip p.2)
            dictInsert d kv.1 kv.2) []
        let features := match m.featuresBlock with
          | none => []
          | some items => items.foldl (fun acc it => keyInsert acc (pyStrip it)) []
        let other := match m.otherBlock with
          | none => []
          | some items => items.foldl (fun acc it => keyInsert acc (pyStrip it)) []
        match m.descriptionBlock with
        | some none => .error .attributeError
        | some (some dtext) => .ok ⟨pyStrip t, details, features, some (pyStrip dtext), other⟩
        | none => .ok ⟨pyStrip t, details, features, none, other⟩

/-- A concrete ad markup whose attribute table has one unpaired cell. -/
def oddCellsMarkup : AdMarkup :=
  { titleBlock := some (str "Cím"), attrTable := some [str "Ár:"],
    featuresBlock := none, descriptionBlock := none, otherBlock := none }

/-- A concrete ad markup with no title block. -/
def noTitleMarkup : AdMarkup :=
  { titleBlock := none, attrTable := some [], featuresBlock := none,
    descriptionBlock := none, otherBlock := none }

/-- A concrete ad markup with a title but no attribute table. -/
def noTableMarkup : AdMarkup :=
  { titleBlock := some (str "Cím"), attrTable := none, featuresBlock := none,
    descriptionBlock := none, otherBlock := none }

/-- A concrete ad markup with the mandatory blocks only. -/
def onlyMandatoryMarkup : AdMarkup :=
  { titleBlock := some (str "Cím"), attrTable := some [], featuresBlock := none,
    descriptionBlock := none, otherBlock := none }

/-- Outcome of one `requests.get(url)` call, parameterised by the
(already soup-parsed) body type of the page. -/
inductive FetchResult (α : Type) : Type
  | success (code : Nat) (body : α)
  | httpError (code : Nat)
  | connError
deriving DecidableEq, Repr

/-- Embedding of `BasePage.download`: `requests.get` itself sits
outside the `try` block, so a connection failure propagates; a non-2xx
status makes `raise_for_status` raise `HTTPError`, which is caught and
logged so `_html` stays as it was; on success `_html` is set to the
body.  Returns the new `_html` and the recorded status code. -/
def download {α : Type} (fr : FetchResult α) (html : Option α) :
    Except PyErr (Option α × Nat) :=
  match fr with
  | .connError => .error .connectionError
  | .httpError code => .ok (html, code)
  | .success code body => .ok (some body, code)

/-- The mutable attributes of one `AdPage` object (`url`, `brand` and
`model` are set in `__init__`; `_html`, `status` and `_data` start as
`None` class attributes). -/
structure AdPageState where
  url : Option Str
  brand : Str
  model : Str
  status : Option Nat := none
  html : Option AdMarkup := none
  data : Option AdRec := none
deriving DecidableEq, Repr

/-- Constructor call `AdPage(url, brand, model)`. -/
def mkAdPage (url : Option Str) (brand model : Str) : AdPageState :=
  { url := url, brand := brand, model := model }

/-- Embedding of `AdPage.parse`: download when `_html is None`, then if
markup is present run the extraction and store `_data`.  The second
component counts how many times `download` ran during the call. -/
def adPageParse (fr : FetchResult AdMarkup) (st : AdPageState) :
    Except PyErr (AdPageState × Nat) :=
  let dl : Except PyErr (AdPageState × Nat) :=
    match st.html with
    | none =>
      match download fr st.html with
      | .error e => .error e
      | .ok (h, code) => .ok ({ st with html := h, status := some code }, 1)
    | some _ => .ok (st, 0)
  match dl with
  | .error e => .error e
  | .ok (st1, n) =>
    match st1.html with
    | none => .ok (st1, n)
    | some mkp =>
      match adExtract mkp with
      | .error e => .error e
      | .ok r => .ok ({ st1 with data := some r }, n)

/-- Embedding of the `AdPage.data` property: parse only when `_data is
None`, then return `self._data` (which may still be `None`). -/
def adPageData (fr : FetchResult AdMarkup) (st : AdPageState) :
    Except PyErr (AdPageState × Option AdRec × Nat) :=
  match st.data with
  | some d => .ok (st, some d, 0)
  | none =>
    match adPageParse fr st with
    | .error e => .error e
    | .ok (st1, n) => .ok (st1, st1.data, n)

/-- One search-results page as seen by `ResultsPage.parse`: each
`div.cim-kontener` item is `none` when it has no anchor, and otherwise
carries the anchor's optional `href` attribute. -/
structure ResultsMarkup where
  items : List (Option (Option Str))
deriving DecidableEq, Repr

/-- The mutable attributes of one `ResultsPage` object. -/
structure ResultsPageState where
  url : Str
  brand : Str
  model : Str
  status : Option Nat := none
  html : Option ResultsMarkup := none
  links : Option (List (Option Str)) := none
deriving DecidableEq, Repr

/-- The comprehension `[item.find('a').get('href') for item in
result_items]`: a container without an anchor raises
`AttributeError`; a missing `href` attribute just yields `None`. -/
def extractLinks (items : List (Option (Option Str))) : Except PyErr (List (Option Str)) :=
  items.mapM (fun it =>
    match it with
    | none => Except.error PyErr.attributeError
    | some href => Except.ok href)

/-- Embedding of `ResultsPage.parse`. -/
def resultsParse (fr : FetchResult ResultsMarkup) (st : ResultsPageState) :
    Except PyErr (ResultsPageState × Nat) :=
  let dl : Except PyErr (ResultsPageState × Nat) :=
    match st.html with
    | none =>
      match download fr st.html with
      | .error e => .error e
      | .ok (h, code) => .ok ({ st with html := h, status := some code }, 1)
    | some _ => .ok (st, 0)
  match dl with
  | .error e => .error e
  | .ok (st1, n) =>
    match st1.html with
    | none => .ok (st1, n)
    | some mkp =>
      match extractLinks mkp.items with
      | .error e => .error e
      | .ok ls => .ok ({ st1 with links := some ls }, n)

/-- Embedding of the `ResultsPage.ads` generator property: parse when
`_links is None`, then yield one fresh `AdPage` per link, or nothing at
all when `_links` is still `None`. -/
def resultsAds (fr : FetchResult ResultsMarkup) (st : ResultsPageState) :
    Except PyErr (ResultsPageState × List AdPageState × Nat) :=
  match st.links with
  | some ls => .ok (st, ls.map (fun href => mkAdPage href st.brand st.model), 0)
  | none =>
    match resultsParse fr st with
    | .error e => .error e
    | .ok (st1, n) =>
      match st1.links with
      | some ls => .ok (st1, ls.map (fun href => mkAdPage href st1.brand st1.model), n)
      | none => .ok (st1, [], n)

/-- One search page as seen by `ModelSearch.parse`: the text of the
`li.last` element when it exists. -/
structure SearchMarkup where
  lastLi : Option Str
deriving DecidableEq, Repr

/-- The mutable attributes of one `ModelSearch` object. -/
structure ModelSearchState where
  url : Str
  brand : Str
  model : Str
  status : Option Nat := none
  html : Option SearchMarkup := none
  page_count : Option Int := none
deriving DecidableEq, Repr

/-- The class constant `BasePage.BASE_URL`. -/
def BASE_URL : Str := str "https://www.hasznaltauto.hu/szemelyauto"

/-- Constructor call `ModelSearch(url, brand, model)`: when `url is None` it defaults to
`'{BASE_URL}/{brand}/{model}'`. -/
def mkModelSearch (url : Option Str) (brand model : Str) : ModelSearchState :=
  { url := url.getD (BASE_URL ++ str "/" ++ brand ++ str "/" ++ model),
    brand := brand, model := model }

/-- Python `int(s)` on the ASCII fragment relevant to page counts:
surrounding whitespace, an optional sign, then one or more ASCII
digits.  (Unicode digit forms and underscore grouping, which a page
counter never contains, are not modelled.)  `none` is the
`ValueError`. -/
def pyInt (s : Str) : Option Int :=
  let core : Str → Option Int := fun ds =>
    if ds ≠ [] ∧ ds.all isDigit = true then some (Int.ofNat (natOfDigits ds)) else none
  match pyStrip s with
  | '+' :: ds => core ds
  | '-' :: ds => (core ds).map (fun n => -n)
  | ds => core ds

/-- Embedding of `ModelSearch.parse`: the `try` block catches only
`AttributeError` (absent `li.last`, from `None.text`) and `TypeError`;
when the element exists but its text is not a valid integer, `int`
raises `ValueError`, which is not caught and propagates. -/
def searchParse (fr : FetchResult SearchMarkup) (st : ModelSearchState) :
    Except PyErr (ModelSearchState × Nat) :=
  let dl : Except PyErr (ModelSearchState × Nat) :=
    match st.html with
    | none =>
      match download fr st.html with
      | .error e => .error e
      | .ok (h, code) => .ok ({ st with html := h, status := some code }, 1)
    | some _ => .ok (st, 0)
  match dl with
  | .error e => .error e
  | .ok (st1, n) =>
    match st1.html with
    | none => .ok (st1, n)
    | some mkp =>
      match mkp.lastLi with
      | none => .ok (st1, n)
      | some txt =>
        match pyInt txt with
        | none => .error .valueError
        | some k => .ok ({ st1 with page_count := some k }, n)

/-- Embedding of the `ModelSearch.page_count` property. -/
def searchPageCount (fr : FetchResult SearchMarkup) (st : ModelSearchState) :
    Except PyErr (ModelSearchState × Option Int × Nat) :=
  match st.page_count with
  | some k => .ok (st, some k, 0)
  | none =>
    match searchParse fr st with
    | .error e => .error e
    | .ok (st1, n) => .ok (st1, st1.page_count, n)

/-- Decimal rendering used by `'{}/page{}'.format`. -/
def natToStr (n : Nat) : Str := (Nat.repr n).toList

/-- Embedding of the `ModelSearch.pages` generator property: one
`ResultsPage` per page number in `range(1, page_count + 1)`, or nothing
when the page count is indeterminate. -/
def searchPages (fr : FetchResult SearchMarkup) (st : ModelSearchState) :
    Except PyErr (ModelSearchState × List ResultsPageState × Nat) :=
  match searchPageCount fr st with
  | .error e => .error e
  | .ok (st1, pc, n) =>
    match pc with
    | none => .ok (st1, [], n)
    | some k =>
      .ok (st1, (List.range k.toNat).map (fun i =>
        { url := st1.url ++ str "/page" ++ natToStr (i + 1),
          brand := st1.brand, model := st1.model }), n)

/-- A search page object whose markup is already downloaded and whose
last-page indicator reads `"abc"`. -/
def invalidLastLiState : ModelSearchState :=
  { url := str "u", brand := str "b", model := str "m",
    html := some ⟨some (str "abc")⟩ }

/-- A fresh ad page object pointed at a fixed URL. -/
def adStateC6 : AdPageState := mkAdPage (some (str "u")) (str "b") (str "m")

/-- The same object after one failed (404) fetch. -/
def adStateC6After : AdPageState := { adStateC6 with status := some 404 }

section CharLemmas

theorem isDigit_not_isPySpace {c : Char} (h : isDigit c = true) : isPySpace c = false := by
  simp only [isDigit, Bool.and_eq_true, decide_eq_true_eq] at h
  simp only [isPySpace, pySpaceCodes, List.contains, List.elem_eq_mem, List.mem_cons,
    List.not_mem_nil, or_false, decide_eq_false_iff_not, not_or]
  omega

theorem isPySpace_not_isDigit {c : Char} (h : isPySpace c = true) : isDigit c = false := by
  cases hd : isDigit c with
  | false => rfl
  | true => rw [isDigit_not_isPySpace hd] at h; exact absurd h (by simp)

theorem g2class_not_isDigit {c : Char} (h : g2class c = true) : isDigit c = false := by
  simp only [g2class, Bool.and_eq_true, Bool.not_eq_true'] at h
  exact h.1

theorem g2class_not_isPySpace {c : Char} (h : g2class c = true) : isPySpace c = false := by
  simp only [g2class, Bool.and_eq_true, Bool.not_eq_true'] at h
  exact h.2

theorem isDigit_ne_slash {c : Char} (h : isDigit c = true) : c ≠ '/' := by
  intro he; subst he; exact absurd h (by decide)

theorem isPySpace_ne_slash {c : Char} (h : isPySpace c = true) : c ≠ '/' := by
  intro he; subst he; exact absurd h (by decide)

theorem isDigit_ne_nbsp {c : Char} (h : isDigit c = true) : c ≠ nbsp := by
  intro he; subst he; exact absurd h (by decide)

end CharLemmas

section PureNumLemmas

theorem pureNum_head {c : Char} {r : Str} (h : pureNum (c :: r) = true) :
    isDigit c = true := by
  cases r with
  | nil => simpa [pureNum] using h
  | cons d rest => simp only [pureNum, Bool.and_eq_true] at h; exact h.1

theorem pureNum_space_head {c : Char} {r : Str} (hc : isPySpace c = true) :
    pureNum (c :: r) = false := by
  cases hp : pureNum (c :: r) with
  | false => rfl
  | true =>
    have h1 := pureNum_head hp
    rw [isPySpace_not_isDigit hc] at h1
    exact absurd h1 (by simp)

theorem pureNum_rest {c : Char} {r : Str} (h : pureNum (c :: r) = true) :
    r = [] ∨ pureNum r = true ∨
      ∃ d r', r = d :: r' ∧ isPySpace d = true ∧ pureNum r' = true := by
  cases r with
  | nil => exact Or.inl rfl
  | cons d rest =>
    simp only [pureNum, Bool.and_eq_true, Bool.or_eq_true] at h
    rcases h.2 with h2 | h2
    · exact Or.inr (Or.inl h2)
    · exact Or.inr (Or.inr ⟨d, rest, rfl, h2.1, h2.2⟩)

theorem pureNum_g1Ok {v : Str} (h : pureNum v = true) : g1Ok v = true := by
  induction v using pureNum.induct with
  | case1 => simp [pureNum] at h
  | case2 c => simp only [pureNum] at h; simp [g1Ok, h]
  | case3 c d rest ih1 ih2 =>
    simp only [pureNum, Bool.and_eq_true, Bool.or_eq_true] at h
    rcases h.2 with h2 | h2
    · have := ih1 h2
      simp only [g1Ok, List.all_cons, Bool.and_eq_true] at this ⊢
      exact ⟨by simp [h.1], this⟩
    · have := ih2 h2.2
      simp only [g1Ok, List.all_cons, Bool.and_eq_true] at this ⊢
      exact ⟨by simp [h.1], by simp [h2.1], this⟩

theorem pureNum_getLast {v : Str} (h : pureNum v = true) :
    ∃ d, v.getLast? = some d ∧ isDigit d = true := by
  induction v using pureNum.induct with
  | case1 => simp [pureNum] at h
  | case2 c => exact ⟨c, rfl, by simpa [pureNum] using h⟩
  | case3 c d rest ih1 ih2 =>
    simp only [pureNum, Bool.and_eq_true, Bool.or_eq_true] at h
    rcases h.2 with h2 | h2
    · obtain ⟨e, he, hde⟩ := ih1 h2
      exact ⟨e, by rw [List.getLast?_cons_cons]; exact he, hde⟩
    · obtain ⟨e, he, hde⟩ := ih2 h2.2
      refine ⟨e, ?_, hde⟩
      have hne : rest ≠ [] := by
        intro hn; subst hn; simp [pureNum] at h2
      rw [List.getLast?_cons_cons]
      cases rest with
      | nil => exact absurd rfl hne
      | cons x xs => rw [List.getLast?_cons_cons]; exact he

end PureNumLemmas

section MatcherBasics

theorem m1_nil (fuel : Nat) : m1 fuel [] = none := by
  cases fuel with
  | zero => rfl
  | succ f => simp [m1, unitAlts, digitAlts]

theorem m1_succ (fuel : Nat) (s : Str) :
    m1 (fuel + 1) s = (unitAlts s).findSome? (altStep fuel) := rfl

theorem matchG2_all {u : Str} (h : unitOk u = true) : matchG2 u = some u := by
  simp only [unitOk, List.all_eq_true] at h
  simp [matchG2, List.takeWhile_eq_self_iff.mpr h, List.dropWhile_eq_nil_iff.mpr h]

theorem tail_matchTail {t u : Str} (h : TailOk t u) : matchTail t = some u := by
  rcases h with ⟨rfl, rfl⟩ | ⟨rfl, hu, hne⟩ | ⟨c, rfl, hc, hu⟩
  · rfl
  · cases hu2 : t with
    | nil => exact absurd hu2 hne
    | cons c rest =>
      subst hu2
      have hc : g2class c = true := by
        simp only [unitOk, List.all_cons, Bool.and_eq_true] at hu
        exact hu.1
      have hns : isPySpace c = false := g2class_not_isPySpace hc
      simp only [matchTail, hns, Bool.false_eq_true, reduceIte]
      exact matchG2_all hu
  · simp only [matchTail, hc, reduceIte, matchG2_all hu]

theorem digitAlts_nil_of_head {s : Str}
    (h : s = [] ∨ ∃ c t, s = c :: t ∧ isDigit c = false) : digitAlts s = [] := by
  rcases h with h | ⟨c, t, rfl, hc⟩
  · subst h; rfl
  · simp [digitAlts, hc]

theorem tail_head_not_digit {t u : Str} (h : TailOk t u) :
    t = [] ∨ ∃ c t', t = c :: t' ∧ isDigit c = false := by
  rcases h with ⟨rfl, rfl⟩ | ⟨rfl, hu, hne⟩ | ⟨c, rfl, hc, hu⟩
  · exact Or.inl rfl
  · cases hu2 : t with
    | nil => exact absurd hu2 hne
    | cons c rest =>
      subst hu2
      refine Or.inr ⟨c, rest, rfl, ?_⟩
      simp only [unitOk, List.all_cons, Bool.and_eq_true] at hu
      exact g2class_not_isDigit hu.1
  · exact Or.inr ⟨c, u, rfl, isPySpace_not_isDigit hc⟩

theorem tail_unitAlts {t u : Str} (h : TailOk t u) : unitAlts t = [] := by
  have hda : digitAlts t = [] := digitAlts_nil_of_head (tail_head_not_digit h)
  rcases h with ⟨rfl, rfl⟩ | ⟨rfl, hu, hne⟩ | ⟨c, rfl, hc, hu⟩
  · rfl
  · cases hu2 : t with
    | nil => exact absurd hu2 hne
    | cons c rest =>
      subst hu2
      have hc : g2class c = true := by
        simp only [unitOk, List.all_cons, Bool.and_eq_true] at hu
        exact hu.1
      simp [unitAlts, g2class_not_isPySpace hc, hda]
  · have hdu : digitAlts u = [] := by
      apply digitAlts_nil_of_head
      cases u with
      | nil => exact Or.inl rfl
      | cons d rest =>
        refine Or.inr ⟨d, rest, rfl, ?_⟩
        simp only [unitOk, List.all_cons, Bool.and_eq_true] at hu
        exact g2class_not_isDigit hu.1
    simp only [unitAlts, hc, reduceIte, hdu, List.map_nil, List.nil_append]
    exact hda

theorem tail_m1 {t u : Str} (h : TailOk t u) (fuel : Nat) : m1 fuel t = none := by
  cases fuel with
  | zero => rfl
  | succ f => rw [m1_succ, tail_unitAlts h, List.findSome?_nil]

theorem findSome_mem {α β : Type} {f : α → Option β} {l : List α} {b : β}
    (h : l.findSome? f = some b) : ∃ a ∈ l, f a = some b := by
  induction l with
  | nil => simp [List.findSome?_nil] at h
  | cons a l ih =>
    rw [List.findSome?_cons] at h
    cases hfa : f a with
    | some c => rw [hfa] at h; exact ⟨a, List.mem_cons_self a l, hfa.trans h⟩
    | none =>
      rw [hfa] at h
      obtain ⟨x, hx, hfx⟩ := ih h
      exact ⟨x, List.mem_cons_of_mem a hx, hfx⟩

theorem altStep_cons (fuel : Nat) (c : Char) (a r : Str) :
    altStep fuel (c :: a, r) = Option.map (fun q => (c :: q.1, q.2)) (altStep fuel (a, r)) := by
  simp only [altStep]
  cases m1 fuel r with
  | some p => cases p with | mk g1 g2 => simp
  | none =>
    cases matchTail r with
    | some g2 => simp
    | none => simp

theorem findSome_map_cons (fuel : Nat) (c : Char) (l : List (Str × Str)) :
    (l.map (fun p => (c :: p.1, p.2))).findSome? (altStep fuel)
      = Option.map (fun q => (c :: q.1, q.2)) (l.findSome? (altStep fuel)) := by
  induction l with
  | nil => rfl
  | cons p l ih =>
    cases p with
    | mk a r =>
      simp only [List.map_cons, List.findSome?_cons, altStep_cons]
      cases altStep fuel (a, r) with
      | some q => rfl
      | none => simpa using ih

end MatcherBasics

section Completeness

theorem digitAlts_one {d : Char} {t : Str} (hd : isDigit d = true)
    (h : t = [] ∨ ∃ c t', t = c :: t' ∧ isDigit c = false) :
    digitAlts (d :: t) = [([d], t)] := by
  rcases h with rfl | ⟨c, t', rfl, hc⟩
  · simp [digitAlts, hd]
  · simp [digitAlts, hd, hc]

theorem digitAlts_two {d e : Char} {t : Str} (hd : isDigit d = true) (he : isDigit e = true)
    (h : t = [] ∨ ∃ c t', t = c :: t' ∧ isDigit c = false) :
    digitAlts (d :: e :: t) = [([d, e], t), ([d], e :: t)] := by
  rcases h with rfl | ⟨c, t', rfl, hc⟩
  · simp [digitAlts, hd, he]
  · simp [digitAlts, hd, he, hc]

theorem digitAlts_three {d e f : Char} {t : Str} (hd : isDigit d = true)
    (he : isDigit e = true) (hf : isDigit f = true) :
    digitAlts (d :: e :: f :: t) = [([d, e, f], t), ([d, e], f :: t), ([d], e :: f :: t)] := by
  cases t with
  | nil => simp [digitAlts, hd, he, hf]
  | cons c t' => simp [digitAlts, hd, he, hf]

theorem altStep_close {t u : Str} (h : TailOk t u) (fuel : Nat) (a : Str) :
    altStep fuel (a, t) = some (a, u) := by
  simp only [altStep, tail_m1 h fuel, tail_matchTail h]

theorem altStep_rec {fuel : Nat} {r g1 g2 : Str} (h : m1 fuel r = some (g1, g2)) (a : Str) :
    altStep fuel (a, r) = some (a ++ g1, g2) := by
  simp only [altStep, h]

theorem findSome_first {α β : Type} {f : α → Option β} {a : α} {l : List α} {b : β}
    (h : f a = some b) : (a :: l).findSome? f = some b := by
  rw [List.findSome?_cons, h]

/-- Completeness of the embedded matcher: on a string of the shape
(group 1)(separator?)(unit)(newline?), with group 1 a pure number
optionally preceded by one whitespace, the repetition matcher succeeds
with exactly those captures.  Proved together with the statement about
the digit-chunk alternatives, by strong induction on the fuel. -/
theorem m1_ladder : ∀ fuel : Nat,
    (∀ w t u, goodG1 w → TailOk t u → (w ++ t).length < fuel →
      m1 fuel (w ++ t) = some (w, u)) ∧
    (∀ v t u, pureNum v = true → TailOk t u → (v ++ t).length ≤ fuel →
      List.findSome? (altStep fuel) (digitAlts (v ++ t)) = some (v, u)) := by
  intro fuel
  induction fuel using Nat.strong_induction_on with
  | _ fuel ih =>
  constructor
  case h.left =>
    intro w t u hw ht hlen
    obtain ⟨f, rfl⟩ : ∃ f, fuel = f + 1 := by
      cases fuel with
      | zero => omega
      | succ f => exact ⟨f, rfl⟩
    rw [m1_succ]
    rcases hw with hw | ⟨c, w', rfl, hc, hw'⟩
    · cases hww : w with
      | nil => rw [hww] at hw; simp [pureNum] at hw
      | cons d w0 =>
        subst hww
        have hd : isDigit d = true := pureNum_head hw
        have hua : unitAlts ((d :: w0) ++ t) = digitAlts ((d :: w0) ++ t) := by
          simp [unitAlts, isDigit_not_isPySpace hd]
        rw [hua]
        exact (ih f (by omega)).2 (d :: w0) t u hw ht (by omega)
    · have hua : unitAlts ((c :: w') ++ t)
          = ((digitAlts (w' ++ t)).map (fun p => (c :: p.1, p.2)))
            ++ digitAlts ((c :: w') ++ t) := by
        simp [unitAlts, hc]
      have hda : digitAlts ((c :: w') ++ t) = [] :=
        digitAlts_nil_of_head (Or.inr ⟨c, w' ++ t, rfl, isPySpace_not_isDigit hc⟩)
      rw [hua, hda, List.append_nil, findSome_map_cons]
      have hlen' : (w' ++ t).length ≤ f := by
        simp only [List.cons_append, List.length_cons] at hlen
        omega
      rw [(ih f (by omega)).2 w' t u hw' ht hlen']
      rfl
  case h.right =>
    intro v t u hv ht hlen
    have hLL : ∀ w' t' u', goodG1 w' → TailOk t' u' → (w' ++ t').length < fuel →
        m1 fuel (w' ++ t') = some (w', u') := by
      intro w' t' u' hw' ht' hlen'
      obtain ⟨f, rfl⟩ : ∃ f, fuel = f + 1 := by
        cases fuel with
        | zero => omega
        | succ f => exact ⟨f, rfl⟩
      rw [m1_succ]
      rcases hw' with hw' | ⟨c, w'', rfl, hc, hw''⟩
      · cases hww : w' with
        | nil => rw [hww] at hw'; simp [pureNum] at hw'
        | cons d w0 =>
          subst hww
          have hd : isDigit d = true := pureNum_head hw'
          have hua : unitAlts ((d :: w0) ++ t') = digitAlts ((d :: w0) ++ t') := by
            simp [unitAlts, isDigit_not_isPySpace hd]
          rw [hua]
          exact (ih f (by omega)).2 (d :: w0) t' u' hw' ht' (by omega)
      · have hua : unitAlts ((c :: w'') ++ t')
            = ((digitAlts (w'' ++ t')).map (fun p => (c :: p.1, p.2)))
              ++ digitAlts ((c :: w'') ++ t') := by
          simp [unitAlts, hc]
        have hda : digitAlts ((c :: w'') ++ t') = [] :=
          digitAlts_nil_of_head (Or.inr ⟨c, w'' ++ t', rfl, isPySpace_not_isDigit hc⟩)
        rw [hua, hda, List.append_nil, findSome_map_cons]
        have hlen'' : (w'' ++ t').length ≤ f := by
          simp only [List.cons_append, List.length_cons] at hlen'
          omega
        rw [(ih f (by omega)).2 w'' t' u' hw'' ht' hlen'']
        rfl
    have hth := tail_head_not_digit ht
    cases hvv : v with
    | nil => rw [hvv] at hv; simp [pureNum] at hv
    | cons d1 r1 =>
    subst hvv
    have hd1 : isDigit d1 = true := pureNum_head hv
    rcases pureNum_rest hv with rfl | hr1 | ⟨sp, r2, rfl, hsp, hr2⟩
    · -- v = [d1]
      rw [List.cons_append, List.nil_append, digitAlts_one hd1 hth]
      exact findSome_first (altStep_close ht fuel [d1])
    · -- pureNum r1
      cases hrr : r1 with
      | nil => rw [hrr] at hr1; simp [pureNum] at hr1
      | cons e r2 =>
      subst hrr
      have he : isDigit e = true := pureNum_head hr1
      rcases pureNum_rest hr1 with rfl | hr2 | ⟨sp, r3, rfl, hsp, hr3⟩
      · -- v = [d1, e]
        rw [show ([d1, e] ++ t) = d1 :: e :: t by rfl, digitAlts_two hd1 he hth]
        exact findSome_first (altStep_close ht fuel [d1, e])
      · -- pureNum r2
        cases hrr2 : r2 with
        | nil => rw [hrr2] at hr2; simp [pureNum] at hr2
        | cons f2 r3 =>
        subst hrr2
        have hf2 : isDigit f2 = true := pureNum_head hr2
        rw [show ((d1 :: e :: f2 :: r3) ++ t) = d1 :: e :: f2 :: (r3 ++ t) by simp,
          digitAlts_three hd1 he hf2]
        rcases pureNum_rest hr2 with rfl | hr3 | ⟨sp, r4, rfl, hsp, hr4⟩
        · -- v = [d1, e, f2]
          exact findSome_first (altStep_close ht fuel [d1, e, f2])
        · -- goodG1 r3 via pureNum
          have hm := hLL r3 t u (Or.inl hr3) ht (by
            simp only [List.cons_append, List.length_cons] at hlen ⊢
            omega)
          exact findSome_first ((altStep_rec hm [d1, e, f2]).trans (by simp))
        · -- r3 = sp :: r4 with whitespace sp
          have hm := hLL (sp :: r4) t u (Or.inr ⟨sp, r4, rfl, hsp, hr4⟩) ht (by
            simp only [List.cons_append, List.length_cons] at hlen ⊢
            omega)
          exact findSome_first ((altStep_rec hm [d1, e, f2]).trans (by simp))
      · -- r2 = sp :: r3 with whitespace sp
        have hda : digitAlts (d1 :: e :: sp :: (r3 ++ t))
            = [([d1, e], sp :: (r3 ++ t)), ([d1], e :: sp :: (r3 ++ t))] :=
          digitAlts_two hd1 he (Or.inr ⟨sp, r3 ++ t, rfl, isPySpace_not_isDigit hsp⟩)
        rw [show ((d1 :: e :: sp :: r3) ++ t) = d1 :: e :: sp :: (r3 ++ t) by simp, hda]
        have hm := hLL (sp :: r3) t u (Or.inr ⟨sp, r3, rfl, hsp, hr3⟩) ht (by
          simp only [List.cons_append, List.length_cons] at hlen ⊢
          omega)
        refine findSome_first ?_
        rw [show (sp :: (r3 ++ t)) = (sp :: r3) ++ t by simp]
        exact (altStep_rec hm [d1, e]).trans (by simp)
    · -- r1 = sp :: r2 with whitespace sp
      have hda : digitAlts (d1 :: sp :: (r2 ++ t)) = [([d1], sp :: (r2 ++ t))] :=
        digitAlts_one hd1 (Or.inr ⟨sp, r2 ++ t, rfl, isPySpace_not_isDigit hsp⟩)
      rw [show ((d1 :: sp :: r2) ++ t) = d1 :: sp :: (r2 ++ t) by simp, hda]
      have hm := hLL (sp :: r2) t u (Or.inr ⟨sp, r2, rfl, hsp, hr2⟩) ht (by
        simp only [List.cons_append, List.length_cons] at hlen ⊢
        omega)
      refine findSome_first ?_
      rw [show (sp :: (r2 ++ t)) = (sp :: r2) ++ t by simp]
      exact (altStep_rec hm [d1]).trans (by simp)

theorem matchG1AndTail_complete {v t u : Str} (hv : pureNum v = true) (ht : TailOk t u) :
    matchG1AndTail (v ++ t) = some (v, u) :=
  (m1_ladder ((v ++ t).length + 1)).1 v t u (Or.inl hv) ht (by omega)

theorem matchValue_complete {v t u : Str} (hv : pureNum v = true) (ht : TailOk t u) :
    matchValue (v ++ t) = some (v, u) := by
  cases hvv : v with
  | nil => rw [hvv] at hv; simp [pureNum] at hv
  | cons d v0 =>
    subst hvv
    have hd : isDigit d = true := pureNum_head hv
    have hmt := matchG1AndTail_complete hv ht
    have hat : matchAt ((d :: v0) ++ t) = some (d :: v0, u) := by
      simp only [List.cons_append, matchAt, isDigit_not_isPySpace hd, Bool.false_eq_true,
        reduceIte]
      simpa using hmt
    rw [List.cons_append] at hat
    simp only [List.cons_append, matchValue, List.append_eq]
    rw [hat]

theorem pyStrip_pureNum {v : Str} (h : pureNum v = true) : pyStrip v = v := by
  have h1 : v.dropWhile isPySpace = v := by
    cases v with
    | nil => rfl
    | cons c v0 =>
      rw [List.dropWhile_cons]
      simp [isDigit_not_isPySpace (pureNum_head h)]
  rw [pyStrip, h1]
  obtain ⟨e, he, hedig⟩ := pureNum_getLast h
  have hrev : v.reverse.head? = some e := by rw [List.head?_reverse]; exact he
  obtain ⟨w, hw⟩ := List.head?_eq_some_iff.mp hrev
  rw [hw, List.dropWhile_cons]
  simp only [isDigit_not_isPySpace hedig, Bool.false_eq_true, reduceIte]
  rw [← hw, List.reverse_reverse]

theorem subStripWs_pureNum {v : Str} (h : pureNum v = true) :
    subStripWs v = v.filter isDigit := by
  have hg := pureNum_g1Ok h
  simp only [g1Ok, List.all_eq_true, Bool.or_eq_true] at hg
  refine List.filter_congr ?_
  intro c hc
  rcases hg c hc with hd | hs
  · simp [hd, isDigit_not_isPySpace hd]
  · simp [hs, isPySpace_not_isDigit hs]

theorem ckv_numeric (key : Str) {v t u : Str} (hv : pureNum v = true) (ht : TailOk t u) :
    clean_key_value key (v ++ t) =
      (if u ≠ [] then key.dropLast ++ str " (" ++ u ++ [')'] else key.dropLast,
       PyVal.vInt (natOfDigits (v.filter isDigit))) := by
  simp only [clean_key_value, matchValue_complete hv ht, pyStrip_pureNum hv,
    subStripWs_pureNum hv]
  by_cases hu : u = [] <;> simp [hu]

end Completeness

section ClaimC1C2

/-- Claim C1: for every label/value pair whose value consists purely of
digit groups of 1-3 digits optionally separated by ordinary or
non-breaking spaces, `_clean_key_value` returns the integer obtained by
concatenating the digit groups, and the field name is the base name
(the label without its final character) unchanged, with no unit
appended. -/
theorem c1_pure_digit_groups (key v : Str) (h : pureNum v = true) :
    clean_key_value key v = (key.dropLast, PyVal.vInt (natOfDigits (v.filter isDigit))) := by
  have hc := ckv_numeric key h (t := []) (u := []) (Or.inl ⟨rfl, rfl⟩)
  simpa using hc

/-- Witness for C1 at the specification's own example
`normalize("Ár:", "1 234 000") = ("Ár", 1234000)`. -/
theorem c1_pure_digit_groups_witness :
    pureNum (str "1 234 000") = true ∧
      clean_key_value (str "Ár:") (str "1 234 000") = (str "Ár", PyVal.vInt 1234000) :=
  ⟨by decide,
   (c1_pure_digit_groups (str "Ár:") (str "1 234 000") (by decide)).trans (by decide)⟩

/-- Claim C2: for every label/value pair whose value is digit groups
followed by a non-empty trailing non-digit non-whitespace unit suffix
(optionally set off by one whitespace character), `_clean_key_value`
returns the parsed integer as the value and a field name equal to
`"{base} ({unit})"`. -/
theorem c2_unit_suffix (key v sep u : Str) (hv : pureNum v = true)
    (hu : unitOk u = true) (hne : u ≠ []) (hsep : sepOk sep) :
    clean_key_value key (v ++ sep ++ u)
      = (key.dropLast ++ str " (" ++ u ++ [')'],
         PyVal.vInt (natOfDigits (v.filter isDigit))) := by
  have ht : TailOk (sep ++ u) u := by
    rcases hsep with rfl | ⟨c, rfl, hc⟩
    · exact Or.inr (Or.inl ⟨by simp, hu, hne⟩)
    · exact Or.inr (Or.inr ⟨c, by simp, hc, hu⟩)
  have hc := ckv_numeric key hv ht
  rw [List.append_assoc]
  rw [hc, if_pos hne]

/-- Witness for C2 at the specification's own example
`normalize("Kor:", "5 év") = ("Kor (év)", 5)`. -/
theorem c2_unit_suffix_witness :
    pureNum (str "5") = true ∧ unitOk (str "év") = true ∧
      clean_key_value (str "Kor:") (str "5 év") = (str "Kor (év)", PyVal.vInt 5) :=
  ⟨by decide, by decide,
   by
    have hc := c2_unit_suffix (str "Kor:") (str "5") [' '] (str "év") (by decide) (by decide)
      (by decide) (Or.inr ⟨' ', rfl, by decide⟩)
    exact (by decide : clean_key_value (str "Kor:") (str "5 év")
        = clean_key_value (str "Kor:") (str "5" ++ [' '] ++ str "év")).trans
      (hc.trans (by decide))⟩

end ClaimC1C2

section Soundness

theorem getLast_of_some {α : Type} {l : List α} {a : α} (h : l.getLast? = some a) : a ∈ l := by
  obtain ⟨hne, heq⟩ := List.mem_getLast?_eq_getLast (Option.mem_def.mpr h)
  rw [heq]
  exact List.getLast_mem hne

theorem digitAlts_mem {s c r : Str} (h : (c, r) ∈ digitAlts s) :
    s = c ++ r ∧ c ≠ [] ∧ c.all isDigit = true := by
  cases s with
  | nil => simp [digitAlts] at h
  | cons d1 r1 =>
    cases h1 : isDigit d1 with
    | false => simp [digitAlts, h1] at h
    | true =>
      cases r1 with
      | nil =>
        simp [digitAlts, h1, Prod.ext_iff] at h
        obtain ⟨rfl, rfl⟩ := h
        exact ⟨rfl, by simp, by simp [h1]⟩
      | cons d2 r2 =>
        cases h2 : isDigit d2 with
        | false =>
          simp [digitAlts, h1, h2, Prod.ext_iff] at h
          obtain ⟨rfl, rfl⟩ := h
          exact ⟨rfl, by simp, by simp [h1]⟩
        | true =>
          cases r2 with
          | nil =>
            simp [digitAlts, h1, h2, Prod.ext_iff] at h
            rcases h with ⟨rfl, rfl⟩ | ⟨rfl, rfl⟩
            · exact ⟨rfl, by simp, by simp [h1, h2]⟩
            · exact ⟨rfl, by simp, by simp [h1]⟩
          | cons d3 r3 =>
            cases h3 : isDigit d3 with
            | false =>
              simp [digitAlts, h1, h2, h3, Prod.ext_iff] at h
              rcases h with ⟨rfl, rfl⟩ | ⟨rfl, rfl⟩
              · exact ⟨rfl, by simp, by simp [h1, h2]⟩
              · exact ⟨rfl, by simp, by simp [h1]⟩
            | true =>
              simp [digitAlts, h1, h2, h3, Prod.ext_iff] at h
              rcases h with ⟨rfl, rfl⟩ | ⟨rfl, rfl⟩ | ⟨rfl, rfl⟩
              · exact ⟨rfl, by simp, by simp [h1, h2, h3]⟩
              · exact ⟨rfl, by simp, by simp [h1, h2]⟩
              · exact ⟨rfl, by simp, by simp [h1]⟩

theorem all_digit_g1Ok {c : Str} (h : c.all isDigit = true) : g1Ok c = true := by
  simp only [List.all_eq_true] at h
  simp only [g1Ok, List.all_eq_true, Bool.or_eq_true]
  exact fun x hx => Or.inl (h x hx)

theorem unitAlts_mem {s c r : Str} (h : (c, r) ∈ unitAlts s) :
    s = c ++ r ∧ c ≠ [] ∧ g1Ok c = true := by
  unfold unitAlts at h
  rw [List.mem_append] at h
  rcases h with h | h
  · cases s with
    | nil => simp at h
    | cons c0 rest =>
      by_cases hsp : isPySpace c0 = true
      · simp only [hsp, reduceIte, List.mem_map] at h
        obtain ⟨⟨a, b⟩, hmem, heq⟩ := h
        obtain ⟨hs, hne, hdig⟩ := digitAlts_mem hmem
        obtain ⟨hc, hr⟩ := Prod.ext_iff.mp heq
        simp only at hc hr
        subst hc
        subst hr
        refine ⟨by simp [hs], by simp, ?_⟩
        simp only [List.all_eq_true] at hdig
        simp only [g1Ok, List.all_cons, List.all_eq_true, Bool.or_eq_true, Bool.and_eq_true]
        exact ⟨Or.inr hsp, fun x hx => Or.inl (hdig x hx)⟩
      · simp only [hsp, reduceIte] at h
        simp at h
  · obtain ⟨hs, hne, hdig⟩ := digitAlts_mem h
    exact ⟨hs, hne, all_digit_g1Ok hdig⟩

theorem matchG2_sound {s u : Str} (h : matchG2 s = some u) :
    unitOk u = true ∧ (s = u ∨ s = u ++ ['\n']) := by
  simp only [matchG2] at h
  split at h
  case isTrue hc =>
    obtain rfl : s.takeWhile g2class = u := by injection h
    constructor
    · simp only [unitOk, List.all_eq_true]
      exact fun x hx => List.mem_takeWhile_imp hx
    · have hsplit := List.takeWhile_append_dropWhile (p := g2class) (l := s)
      simp only [Bool.or_eq_true, decide_eq_true_eq] at hc
      rcases hc with hd | hd
      · left
        conv_lhs => rw [← hsplit]
        rw [hd, List.append_nil]
      · right
        conv_lhs => rw [← hsplit]
        rw [hd]
  case isFalse hc => exact absurd h (by simp)

theorem matchTail_sound {t u : Str} (h : matchTail t = some u) :
    ∃ sep nl, t = sep ++ u ++ nl ∧ sepOk sep ∧ nlOk nl ∧ unitOk u = true := by
  cases t with
  | nil =>
    rw [show matchTail [] = matchG2 [] from rfl] at h
    obtain ⟨hu, hs⟩ := matchG2_sound h
    rcases hs with hs | hs
    · exact ⟨[], [], by simp [← hs], Or.inl rfl, Or.inl rfl, hu⟩
    · exact absurd hs.symm (by simp)
  | cons c rest =>
    simp only [matchTail] at h
    by_cases hsp : isPySpace c = true
    · rw [if_pos hsp] at h
      cases hg : matchG2 rest with
      | some u' =>
        rw [hg] at h
        obtain rfl : u' = u := by injection h
        obtain ⟨hu, hs⟩ := matchG2_sound hg
        rcases hs with rfl | hs
        · exact ⟨[c], [], by simp, Or.inr ⟨c, rfl, hsp⟩, Or.inl rfl, hu⟩
        · exact ⟨[c], ['\n'], by simp [hs], Or.inr ⟨c, rfl, hsp⟩, Or.inr rfl, hu⟩
      | none =>
        rw [hg] at h
        obtain ⟨hu, hs⟩ := matchG2_sound h
        rcases hs with hs | hs
        · exact ⟨[], [], by simp [← hs], Or.inl rfl, Or.inl rfl, hu⟩
        · exact ⟨[], ['\n'], by simp [hs], Or.inl rfl, Or.inr rfl, hu⟩
    · rw [if_neg hsp] at h
      obtain ⟨hu, hs⟩ := matchG2_sound h
      rcases hs with hs | hs
      · exact ⟨[], [], by simp [← hs], Or.inl rfl, Or.inl rfl, hu⟩
      · exact ⟨[], ['\n'], by simp [hs], Or.inl rfl, Or.inr rfl, hu⟩

theorem m1_sound : ∀ (fuel : Nat) {s g1 g2 : Str}, m1 fuel s = some (g1, g2) →
    ∃ sep nl, s = g1 ++ sep ++ g2 ++ nl ∧ g1Ok g1 = true ∧ g1 ≠ [] ∧
      unitOk g2 = true ∧ sepOk sep ∧ nlOk nl := by
  intro fuel
  induction fuel with
  | zero => intro s g1 g2 h; simp [m1] at h
  | succ f ih =>
    intro s g1 g2 h
    rw [m1_succ] at h
    obtain ⟨⟨a, r⟩, hmem, hstep⟩ := findSome_mem h
    obtain ⟨rfl, hane, hag⟩ := unitAlts_mem hmem
    rw [altStep] at hstep
    cases hm : m1 f r with
    | some p =>
      obtain ⟨g1', g2'⟩ := p
      rw [hm] at hstep
      obtain ⟨hg1, hg2⟩ : a ++ g1' = g1 ∧ g2' = g2 := by
        have := hstep
        simp only [Option.some.injEq, Prod.ext_iff] at this
        exact this
      subst hg1
      subst hg2
      obtain ⟨sep, nl, hr, hg1o, hne', hu', hsep, hnl⟩ := ih hm
      refine ⟨sep, nl, by rw [hr]; simp, ?_, by simp [hane], hu', hsep, hnl⟩
      simp only [g1Ok, List.all_append, Bool.and_eq_true] at hag hg1o ⊢
      exact ⟨hag, hg1o⟩
    | none =>
      rw [hm] at hstep
      cases hmt : matchTail r with
      | some g2' =>
        rw [hmt] at hstep
        obtain ⟨hg1, hg2⟩ : a = g1 ∧ g2' = g2 := by
          simp only [Option.some.injEq, Prod.ext_iff] at hstep
          exact hstep
        subst hg1
        subst hg2
        obtain ⟨sep, nl, hr, hsep, hnl, hu⟩ := matchTail_sound hmt
        exact ⟨sep, nl, by rw [hr]; simp, hag, hane, hu, hsep, hnl⟩
      | none => rw [hmt] at hstep; exact absurd hstep (by simp)

theorem matchAt_sound {s g1 g2 : Str} (h : matchAt s = some (g1, g2)) :
    ∃ pre sep nl, s = pre ++ g1 ++ sep ++ g2 ++ nl ∧ sepOk pre ∧ g1Ok g1 = true ∧
      g1 ≠ [] ∧ unitOk g2 = true ∧ sepOk sep ∧ nlOk nl := by
  cases s with
  | nil =>
    rw [show matchAt [] = m1 1 [] from rfl] at h
    obtain ⟨sep, nl, hs, h2, h3, h4, h5, h6⟩ := m1_sound _ h
    exact ⟨[], sep, nl, by simpa using hs, Or.inl rfl, h2, h3, h4, h5, h6⟩
  | cons c rest =>
    simp only [matchAt] at h
    by_cases hsp : isPySpace c = true
    · rw [if_pos hsp] at h
      cases hg : matchG1AndTail rest with
      | some p =>
        rw [hg] at h
        obtain rfl : p = (g1, g2) := by injection h
        obtain ⟨sep, nl, hs, h2, h3, h4, h5, h6⟩ := m1_sound _ hg
        exact ⟨[c], sep, nl, by simp [hs], Or.inr ⟨c, rfl, hsp⟩, h2, h3, h4, h5, h6⟩
      | none =>
        rw [hg] at h
        obtain ⟨sep, nl, hs, h2, h3, h4, h5, h6⟩ := m1_sound _ h
        exact ⟨[], sep, nl, by simpa using hs, Or.inl rfl, h2, h3, h4, h5, h6⟩
    · rw [if_neg hsp] at h
      obtain ⟨sep, nl, hs, h2, h3, h4, h5, h6⟩ := m1_sound _ h
      exact ⟨[], sep, nl, by simpa using hs, Or.inl rfl, h2, h3, h4, h5, h6⟩

theorem matchValue_sound : ∀ {s g1 g2 : Str}, matchValue s = some (g1, g2) →
    ∃ pre sep nl, s = pre ++ g1 ++ sep ++ g2 ++ nl ∧ ('/' ∉ pre) ∧ g1Ok g1 = true ∧
      g1 ≠ [] ∧ unitOk g2 = true ∧ sepOk sep ∧ nlOk nl := by
  intro s
  induction s with
  | nil =>
    intro g1 g2 h
    rw [matchValue] at h
    obtain ⟨pre, sep, nl, hs, hpre, h2, h3, h4, h5, h6⟩ := matchAt_sound h
    refine ⟨pre, sep, nl, hs, ?_, h2, h3, h4, h5, h6⟩
    rcases hpre with rfl | ⟨c, rfl, hc⟩
    · simp
    · simpa using isPySpace_ne_slash hc ∘ Eq.symm
  | cons c rest ih =>
    intro g1 g2 h
    rw [matchValue] at h
    cases hat : matchAt (c :: rest) with
    | some p =>
      rw [hat] at h
      obtain rfl : p = (g1, g2) := by injection h
      obtain ⟨pre, sep, nl, hs, hpre, h2, h3, h4, h5, h6⟩ := matchAt_sound hat
      refine ⟨pre, sep, nl, hs, ?_, h2, h3, h4, h5, h6⟩
      rcases hpre with rfl | ⟨c', rfl, hc'⟩
      · simp
      · simpa using isPySpace_ne_slash hc' ∘ Eq.symm
    | none =>
      rw [hat] at h
      by_cases hc : c = '/'
      · rw [if_pos hc] at h; exact absurd h (by simp)
      · rw [if_neg hc] at h
        obtain ⟨pre, sep, nl, hs, hpre, h2, h3, h4, h5, h6⟩ := ih h
        refine ⟨c :: pre, sep, nl, by simp [hs], ?_, h2, h3, h4, h5, h6⟩
        simp only [List.mem_cons, not_or]
        exact ⟨fun he => hc he.symm, hpre⟩

theorem digitAlts_nodigit {s : Str} (h : ∀ c ∈ s, isDigit c = false) : digitAlts s = [] := by
  apply digitAlts_nil_of_head
  cases s with
  | nil => exact Or.inl rfl
  | cons c t => exact Or.inr ⟨c, t, rfl, h c (List.mem_cons_self c t)⟩

theorem m1_nodigit {s : Str} (h : ∀ c ∈ s, isDigit c = false) (fuel : Nat) :
    m1 fuel s = none := by
  cases fuel with
  | zero => rfl
  | succ f =>
    rw [m1_succ]
    have hua : unitAlts s = [] := by
      unfold unitAlts
      rw [digitAlts_nodigit h, List.append_nil]
      cases s with
      | nil => rfl
      | cons c rest =>
        have hrest : digitAlts rest = [] :=
          digitAlts_nodigit (fun x hx => h x (List.mem_cons_of_mem c hx))
        by_cases hsp : isPySpace c = true
        · simp [hsp, hrest]
        · simp [hsp]
    rw [hua, List.findSome?_nil]

theorem matchValue_nodigit : ∀ {s : Str}, (∀ c ∈ s, isDigit c = false) →
    matchValue s = none := by
  intro s
  induction s with
  | nil => intro _; rfl
  | cons c rest ih =>
    intro h
    have hrest : ∀ x ∈ rest, isDigit x = false := fun x hx => h x (List.mem_cons_of_mem c hx)
    have hat : matchAt (c :: rest) = none := by
      simp only [matchAt]
      have h1 : matchG1AndTail rest = none := m1_nodigit hrest _
      have h2 : matchG1AndTail (c :: rest) = none := m1_nodigit h _
      by_cases hsp : isPySpace c = true
      · rw [if_pos hsp, h1, h2]
      · rw [if_neg hsp, h2]
    rw [matchValue, hat]
    by_cases hc : c = '/'
    · rw [if_pos hc]
    · rw [if_neg hc]
      exact ih hrest

end Soundness

section ClaimsC3C9C10

/-- Claim C3: `_clean_key_value` is total and deterministic (it is a
pure Lean function, so this holds by construction); whenever the value
does not match the numeric pattern — in particular whenever it contains
no digit at all — the returned value is the input with every
non-breaking space replaced by an ordinary space, and the field name is
the unmodified base name `key[:-1]`. -/
theorem c3_total_string_fallback (key value : Str) :
    (matchValue value = none →
      clean_key_value key value = (key.dropLast, PyVal.vStr (replaceNbsp value))) ∧
    ((∀ c ∈ value, isDigit c = false) → matchValue value = none) := by
  constructor
  · intro h
    simp [clean_key_value, h]
  · exact matchValue_nodigit

/-- Witness for C3 on the digit-free value `"Benzin"`. -/
theorem c3_total_string_fallback_witness :
    matchValue (str "Benzin") = none ∧
      clean_key_value (str "Üzemanyag:") (str "Benzin")
        = (str "Üzemanyag", PyVal.vStr (str "Benzin")) := by
  have h := c3_total_string_fallback (str "Üzemanyag:") (str "Benzin")
  have hn : matchValue (str "Benzin") = none := h.2 (by decide)
  exact ⟨hn, (h.1 hn).trans (by decide)⟩

/-- Claim C9: for every label, the base field name is the label with
its final (separator) character stripped — `key[:-1]` — and that base
is what the returned field name is built from both without a unit and
with a unit suffix appended. -/
theorem c9_base_field_name (key value : Str) :
    (clean_key_value key value).1 = key.dropLast ∨
      ∃ u, u ≠ [] ∧ (clean_key_value key value).1 = key.dropLast ++ str " (" ++ u ++ [')'] := by
  unfold clean_key_value
  cases h : matchValue value with
  | none => exact Or.inl rfl
  | some p =>
    obtain ⟨g1, g2⟩ := p
    by_cases hg : g2 = []
    · left
      simp [hg]
    · right
      exact ⟨g2, hg, by simp [hg]⟩

/-- Claim C10: the leading part `[^/]*?` of the numeric pattern
excludes `/` but not digits, so a value of the form digits `/` digits
takes the string branch unchanged, while a `/` inside the trailing unit
suffix still yields the numeric branch. -/
theorem c10_slash (key : Str) :
    (∀ x y : Str, x ≠ [] → y ≠ [] → x.all isDigit = true → y.all isDigit = true →
       clean_key_value key (x ++ '/' :: y) = (key.dropLast, PyVal.vStr (x ++ '/' :: y))) ∧
    (∀ v sep u : Str, pureNum v = true → unitOk u = true → u ≠ [] → '/' ∈ u →
       sepOk sep →
       clean_key_value key (v ++ sep ++ u)
         = (key.dropLast ++ str " (" ++ u ++ [')'],
            PyVal.vInt (natOfDigits (v.filter isDigit)))) := by
  constructor
  · intro x y hx hy hxd hyd
    have hnone : matchValue (x ++ '/' :: y) = none := by
      cases hm : matchValue (x ++ '/' :: y) with
      | none => rfl
      | some p =>
        exfalso
        obtain ⟨g1, g2⟩ := p
        obtain ⟨pre, sep, nl, hs, hpre, hg1, hg1ne, hg2, hsep, hnl⟩ := matchValue_sound hm
        -- the slash can only sit inside group 2
        have hslash : '/' ∈ g2 := by
          have hmem : '/' ∈ x ++ '/' :: y := by simp
          rw [hs] at hmem
          simp only [List.mem_append, List.mem_cons] at hmem
          rcases hmem with ((((hm1 | hm1) | hm1) | hm1) | hm1)
          · exact absurd hm1 hpre
          · simp only [g1Ok, List.all_eq_true, Bool.or_eq_true] at hg1
            rcases hg1 _ hm1 with hd | hsp
            · exact absurd rfl (isDigit_ne_slash hd)
            · exact absurd rfl (isPySpace_ne_slash hsp)
          · rcases hsep with rfl | ⟨c, rfl, hc⟩
            · simp at hm1
            · rw [List.mem_singleton] at hm1
              exact absurd hm1.symm (isPySpace_ne_slash hc)
          · exact hm1
          · rcases hnl with rfl | rfl
            · simp at hm1
            · rw [List.mem_singleton] at hm1
              exact absurd hm1 (by decide)
        have hg2ne : g2 ≠ [] := by
          intro hg2nil
          rw [hg2nil] at hslash
          simp at hslash
        -- the whole value ends in a digit of y
        obtain ⟨d, hyd', hddig⟩ : ∃ d, y.getLast? = some d ∧ isDigit d = true := by
          cases hyl : y.getLast? with
          | none => exact absurd (List.getLast?_eq_none_iff.mp hyl) hy
          | some d =>
            refine ⟨d, rfl, ?_⟩
            simp only [List.all_eq_true] at hyd
            exact hyd d (getLast_of_some hyl)
        have hlast : (x ++ '/' :: y).getLast? = some d := by
          rw [show ('/' :: y) = ['/'] ++ y from rfl, ← List.append_assoc]
          rw [List.getLast?_append_of_ne_nil _ hy]
          exact hyd'
        rcases hnl with rfl | rfl
        · -- no trailing newline: the last character lies in group 2
          have hg2last : (x ++ '/' :: y).getLast? = g2.getLast? := by
            rw [hs, List.append_nil, List.getLast?_append_of_ne_nil _ hg2ne]
          obtain ⟨e, hel⟩ : ∃ e, g2.getLast? = some e := by
            cases hgl : g2.getLast? with
            | none => exact absurd (List.getLast?_eq_none_iff.mp hgl) hg2ne
            | some e => exact ⟨e, rfl⟩
          have hde : e = d := by
            rw [hlast, hel] at hg2last
            injection hg2last.symm
          have hng : g2class e = true := by
            simp only [unitOk, List.all_eq_true] at hg2
            exact hg2 e (getLast_of_some hel)
          rw [hde] at hng
          rw [g2class_not_isDigit hng] at hddig
          exact absurd hddig (by simp)
        · -- a trailing newline would have to be the last character
          have hnlast : (x ++ '/' :: y).getLast? = some '\n' := by
            rw [hs]
            exact List.getLast?_concat _
          rw [hlast] at hnlast
          have : d = '\n' := by injection hnlast
          rw [this] at hddig
          exact absurd hddig (by decide)
    have hrepl : replaceNbsp (x ++ '/' :: y) = x ++ '/' :: y := by
      unfold replaceNbsp
      have : ∀ c ∈ x ++ '/' :: y, (if c = nbsp then ' ' else c) = id c := by
        intro c hc
        simp only [List.mem_append, List.mem_cons] at hc
        simp only [List.all_eq_true] at hxd hyd
        have : c ≠ nbsp := by
          rcases hc with hc | rfl | hc
          · exact isDigit_ne_nbsp (hxd c hc)
          · decide
          · exact isDigit_ne_nbsp (hyd c hc)
        simp [this]
      rw [List.map_congr_left this, List.map_id]
    simp [clean_key_value, hnone, hrepl]
  · intro v sep u hv hu hne hslash hsep
    have ht : TailOk (sep ++ u) u := by
      rcases hsep with rfl | ⟨c, rfl, hc⟩
      · exact Or.inr (Or.inl ⟨by simp, hu, hne⟩)
      · exact Or.inr (Or.inr ⟨c, by simp, hc, hu⟩)
    have hc := ckv_numeric key hv ht
    rw [List.append_assoc]
    rw [hc, if_pos hne]

/-- Witness for C10 at the two character-for-character examples
`"2017/6"` (string branch) and `"120 km/h"` (numeric branch with `/` in
the unit). -/
theorem c10_slash_witness :
    clean_key_value (str "Évjárat:") (str "2017/6")
        = (str "Évjárat", PyVal.vStr (str "2017/6")) ∧
      clean_key_value (str "Sebesség:") (str "120 km/h")
        = (str "Sebesség (km/h)", PyVal.vInt 120) := by
  constructor
  · have h1 := (c10_slash (str "Évjárat:")).1 (str "2017") (str "6")
      (by decide) (by decide) (by decide) (by decide)
    exact (by decide : clean_key_value (str "Évjárat:") (str "2017/6")
        = clean_key_value (str "Évjárat:") (str "2017" ++ '/' :: str "6")).trans
      (h1.trans (by decide))
  · have h2 := (c10_slash (str "Sebesség:")).2 (str "120") [' '] (str "km/h")
      (by decide) (by decide) (by decide) (by decide) (Or.inr ⟨' ', rfl, by decide⟩)
    exact (by decide : clean_key_value (str "Sebesség:") (str "120 km/h")
        = clean_key_value (str "Sebesség:") (str "120" ++ [' '] ++ str "km/h")).trans
      (h2.trans (by decide))

end ClaimsC3C9C10

section ClaimsC4C8

theorem pairCells_odd : ∀ (cells : List Str), cells.length % 2 = 1 → pairCells cells = none := by
  intro cells
  induction cells using pairCells.induct with
  | case1 => intro h; simp at h
  | case2 x => intro _; rfl
  | case3 x y rest ih =>
    intro h
    have hr : rest.length % 2 = 1 := by
      simp only [List.length_cons] at h
      omega
    simp [pairCells, ih hr]

theorem pairCells_even : ∀ (cells : List Str), cells.length % 2 = 0 →
    ∃ ps, pairCells cells = some ps := by
  intro cells
  induction cells using pairCells.induct with
  | case1 => intro _; exact ⟨[], rfl⟩
  | case2 x => intro h; simp at h
  | case3 x y rest ih =>
    intro h
    have hr : rest.length % 2 = 0 := by
      simp only [List.length_cons] at h
      omega
    obtain ⟨ps, hps⟩ := ih hr
    exact ⟨(x, y) :: ps, by simp [pairCells, hps]⟩

/-- Counterexample to claim C4 as stated: on an attribute table with an
odd number of cells `AdPage.parse` does not succeed — reading the value
cell for the final unpaired label raises `IndexError`. -/
theorem c4_counterexample : adExtract oddCellsMarkup = Except.error PyErr.indexError := by
  rfl

/-- Claim C4 (amended): for every ad markup whose attribute table
contains an odd number of cells (and whose title block is present, so
execution reaches the cell loop), `AdPage.parse` raises `IndexError`
when it reads `cells[cell_index + 1]` for the final unpaired label;
the pairs are consumed as cell 2i / cell 2i+1 only when the count is
even. -/
theorem c4_odd_cells (m : AdMarkup) (t : Str) (cells : List Str)
    (ht : m.titleBlock = some t) (hc : m.attrTable = some cells)
    (hodd : cells.length % 2 = 1) :
    adExtract m = Except.error PyErr.indexError := by
  simp only [adExtract, ht, hc, pairCells_odd cells hodd]

/-- Witness for the amended C4 on the one-cell table. -/
theorem c4_odd_cells_witness :
    adExtract oddCellsMarkup = Except.error PyErr.indexError :=
  c4_odd_cells oddCellsMarkup (str "Cím") [str "Ár:"] rfl rfl (by decide)

/-- Claim C8: `AdPage.parse` on markup lacking the attribute table or
the title block fails with a structural `AttributeError` for that
single ad, whereas an absent optional features block yields an empty
feature set, an absent description block an omitted description, and an
absent other-information block an empty set. -/
theorem c8_mandatory_vs_optional (m : AdMarkup) :
    (m.titleBlock = none → adExtract m = Except.error PyErr.attributeError) ∧
    (∀ t, m.titleBlock = some t → m.attrTable = none →
      adExtract m = Except.error PyErr.attributeError) ∧
    (∀ t cells, m.titleBlock = some t → m.attrTable = some cells →
      cells.length % 2 = 0 → m.descriptionBlock ≠ some none →
      ∃ r, adExtract m = Except.ok r ∧
        (m.featuresBlock = none → r.features = []) ∧
        (m.descriptionBlock = none → r.description = none) ∧
        (m.otherBlock = none → r.other = [])) := by
  refine ⟨?_, ?_, ?_⟩
  · intro h
    unfold adExtract
    rw [h]
  · intro t ht hat
    unfold adExtract
    rw [ht, hat]
  · intro t cells ht hat heven hdesc
    obtain ⟨ps, hps⟩ := pairCells_even cells heven
    cases hdb : m.descriptionBlock with
    | none =>
      simp only [adExtract, ht, hat, hps, hdb]
      refine ⟨_, rfl, ?_, ?_, ?_⟩
      · intro hfb; simp [hfb]
      · intro _; rfl
      · intro hob; simp [hob]
    | some dsc =>
      cases dsc with
      | none => exact absurd hdb hdesc
      | some dtext =>
        simp only [adExtract, ht, hat, hps, hdb]
        refine ⟨_, rfl, ?_, ?_, ?_⟩
        · intro hfb; simp [hfb]
        · intro hdb2; exact absurd hdb2 (by simp)
        · intro hob; simp [hob]

/-- Witness for C8: the mandatory-element failures at concrete markups,
and the optional-element defaults on markup with only the mandatory
blocks. -/
theorem c8_mandatory_vs_optional_witness :
    adExtract noTitleMarkup = Except.error PyErr.attributeError ∧
      adExtract noTableMarkup = Except.error PyErr.attributeError ∧
      ∃ r, adExtract onlyMandatoryMarkup = Except.ok r ∧
        r.features = [] ∧ r.description = none ∧ r.other = [] := by
  refine ⟨(c8_mandatory_vs_optional noTitleMarkup).1 rfl,
    (c8_mandatory_vs_optional noTableMarkup).2.1 (str "Cím") rfl rfl, ?_⟩
  obtain ⟨r, hr, hf, hd, ho⟩ := (c8_mandatory_vs_optional onlyMandatoryMarkup).2.2
    (str "Cím") [] rfl rfl (by decide) (by simp [onlyMandatoryMarkup])
  exact ⟨r, hr, hf rfl, hd rfl, ho rfl⟩

end ClaimsC4C8

section ClaimsC5C6C7

/-- Counterexample to claim C5 as stated: when the last-page indicator
element is present but its text `"abc"` is not a valid integer,
`ModelSearch.page_count` does not report `None` — the uncaught
`ValueError` from `int` propagates. -/
theorem c5_counterexample :
    searchPageCount (FetchResult.httpError 0) invalidLastLiState
      = Except.error PyErr.valueError := rfl

/-- Claim C5 (amended): on markup without the last-page indicator the
`AttributeError` is caught, `page_count` reports `None` without
raising and `pages` yields an empty sequence; but when the indicator is
present with text that is not a valid integer, `int` raises
`ValueError`, which is not among the caught exception classes and
propagates. -/
theorem c5_page_count (st : ModelSearchState) (mkp : SearchMarkup) (code : Nat)
    (hhtml : st.html = none) (hpc : st.page_count = none) :
    (mkp.lastLi = none →
      searchPageCount (FetchResult.success code mkp) st
          = Except.ok ({ st with html := some mkp, status := some code }, none, 1) ∧
        searchPages (FetchResult.success code mkp) st
          = Except.ok ({ st with html := some mkp, status := some code }, [], 1)) ∧
    (∀ txt, mkp.lastLi = some txt → pyInt txt = none →
      searchPageCount (FetchResult.success code mkp) st = Except.error PyErr.valueError) := by
  obtain ⟨u, b, mo, stt, h0, p0⟩ := st
  obtain rfl : h0 = none := hhtml
  obtain rfl : p0 = none := hpc
  obtain ⟨ll⟩ := mkp
  constructor
  · intro hll
    obtain rfl : ll = none := hll
    exact ⟨rfl, rfl⟩
  · intro txt hll hint
    obtain rfl : ll = some txt := hll
    simp only [searchPageCount, searchParse, download, hint]

/-- Witness for the amended C5: the indicator-free markup yields
`None` and no pages; the `"abc"` indicator raises `ValueError`. -/
theorem c5_page_count_witness :
    searchPageCount (FetchResult.success 200 (⟨none⟩ : SearchMarkup))
        (mkModelSearch none (str "b") (str "m"))
      = Except.ok ({ mkModelSearch none (str "b") (str "m") with
          html := some ⟨none⟩, status := some 200 }, none, 1) ∧
    searchPages (FetchResult.success 200 (⟨none⟩ : SearchMarkup))
        (mkModelSearch none (str "b") (str "m"))
      = Except.ok ({ mkModelSearch none (str "b") (str "m") with
          html := some ⟨none⟩, status := some 200 }, [], 1) ∧
    searchPageCount (FetchResult.success 200 (⟨some (str "abc")⟩ : SearchMarkup))
        (mkModelSearch none (str "b") (str "m"))
      = Except.error PyErr.valueError := by
  have h1 := c5_page_count (mkModelSearch none (str "b") (str "m")) ⟨none⟩ 200 rfl rfl
  have h2 := c5_page_count (mkModelSearch none (str "b") (str "m")) ⟨some (str "abc")⟩ 200 rfl rfl
  exact ⟨(h1.1 rfl).1, (h1.1 rfl).2, h2.2 (str "abc") rfl (by decide)⟩

/-- Counterexample to claim C6 as stated: after a failed (404) fetch,
re-invoking the `AdPage.data` accessor runs `download` again (the
download counter of the second call is 1, not 0), so fetching is not
at-most-once over the object's lifetime. -/
theorem c6_counterexample :
    adPageData (FetchResult.httpError 404) adStateC6 = Except.ok (adStateC6After, none, 1) ∧
      adPageData (FetchResult.httpError 404) adStateC6After
        = Except.ok (adStateC6After, none, 1) :=
  ⟨rfl, rfl⟩

/-- Claim C6 (amended): results are memoized only on success — once
`_data` is set, a further `data` access neither fetches nor parses; but
after a failed fetch `_html` and `_data` remain `None`, so every
further access invokes `download` again. -/
theorem c6_memoization (fr : FetchResult AdMarkup) (st : AdPageState) :
    (∀ d, st.data = some d → adPageData fr st = Except.ok (st, some d, 0)) ∧
    (∀ code, st.data = none → st.html = none →
      adPageData (FetchResult.httpError code) st
        = Except.ok ({ st with status := some code }, none, 1)) := by
  obtain ⟨u, b, mo, stt, h0, d0⟩ := st
  constructor
  · intro d hd
    obtain rfl : d0 = some d := hd
    rfl
  · intro code hd hh
    obtain rfl : d0 = none := hd
    obtain rfl : h0 = none := hh
    rfl

/-- Witness for the amended C6: a failed fetch downloads again on
access, while an object with memoized data performs no download. -/
theorem c6_memoization_witness :
    adPageData (FetchResult.httpError 500) (mkAdPage none (str "b") (str "m"))
        = Except.ok ({ mkAdPage none (str "b") (str "m") with status := some 500 }, none, 1) ∧
      adPageData (FetchResult.httpError 500)
          { mkAdPage none (str "b") (str "m") with data := some ⟨[], [], [], none, []⟩ }
        = Except.ok ({ mkAdPage none (str "b") (str "m") with data := some ⟨[], [], [], none, []⟩ },
            some ⟨[], [], [], none, []⟩, 0) :=
  ⟨(c6_memoization (FetchResult.httpError 500) (mkAdPage none (str "b") (str "m"))).2 500 rfl rfl,
   (c6_memoization (FetchResult.httpError 500)
      { mkAdPage none (str "b") (str "m") with data := some ⟨[], [], [], none, []⟩ }).1
     ⟨[], [], [], none, []⟩ rfl⟩

/-- Counterexample to claim C7 as stated: a connection failure raised
by `requests.get` itself sits outside the `try` block of
`BasePage.download` and propagates past the fetch boundary. -/
theorem c7_counterexample :
    download (FetchResult.connError : FetchResult AdMarkup) none
      = Except.error PyErr.connectionError := rfl

/-- Claim C7 (amended): a fetch failing with a non-2xx HTTP status is
recovered at the fetch boundary — `download` returns normally, the
markup stays absent and `data` / `ads` / `page_count` / `pages` come
back absent or empty without raising; a connection failure, however, is
raised by `requests.get` before the `try` block and propagates. -/
theorem c7_transport (code : Nat) :
    (∀ (α : Type) (h : Option α), download (FetchResult.httpError code) h = Except.ok (h, code)) ∧
    (∀ st : AdPageState, st.html = none → st.data = none →
      adPageData (FetchResult.httpError code) st
        = Except.ok ({ st with status := some code }, none, 1)) ∧
    (∀ st : ResultsPageState, st.html = none → st.links = none →
      resultsAds (FetchResult.httpError code) st
        = Except.ok ({ st with status := some code }, [], 1)) ∧
    (∀ st : ModelSearchState, st.html = none → st.page_count = none →
      searchPageCount (FetchResult.httpError code) st
          = Except.ok ({ st with status := some code }, none, 1) ∧
        searchPages (FetchResult.httpError code) st
          = Except.ok ({ st with status := some code }, [], 1)) ∧
    (∀ (α : Type), download (FetchResult.connError : FetchResult α) none
        = Except.error PyErr.connectionError) := by
  refine ⟨fun α h => rfl, ?_, ?_, ?_, fun α => rfl⟩
  · intro st hh hd
    obtain ⟨u, b, mo, stt, h0, d0⟩ := st
    obtain rfl : h0 = none := hh
    obtain rfl : d0 = none := hd
    rfl
  · intro st hh hl
    obtain ⟨u, b, mo, stt, h0, l0⟩ := st
    obtain rfl : h0 = none := hh
    obtain rfl : l0 = none := hl
    rfl
  · intro st hh hp
    obtain ⟨u, b, mo, stt, h0, p0⟩ := st
    obtain rfl : h0 = none := hh
    obtain rfl : p0 = none := hp
    exact ⟨rfl, rfl⟩

/-- Witness for the amended C7 at status 404 on fresh objects. -/
theorem c7_transport_witness :
    download (FetchResult.httpError 404) (none : Option AdMarkup) = Except.ok (none, 404) ∧
      resultsAds (FetchResult.httpError 404)
          ({ url := str "u", brand := str "b", model := str "m" } : ResultsPageState)
        = Except.ok (({ url := str "u", brand := str "b", model := str "m",
                        status := some 404 } : ResultsPageState), [], 1) ∧
      download (FetchResult.connError : FetchResult SearchMarkup) none
        = Except.error PyErr.connectionError :=
  ⟨(c7_transport 404).1 AdMarkup none,
   (c7_transport 404).2.2.1 { url := str "u", brand := str "b", model := str "m" } rfl rfl,
   (c7_transport 404).2.2.2.2 SearchMarkup⟩

end ClaimsC5C6C7
